import Mathlib

/-!
Shallow embedding of dm-data-temporal-masker (src/main.py).

The program is a single-file CLI that masks a date column in comma-separated
text.  Its own logic is embedded directly.  The pieces of the CPython runtime
it leans on — `datetime.strptime` / `strftime` with the directives
`%Y %m %d %H %M %S`, the proleptic-Gregorian ordinal arithmetic behind
`date.toordinal` / `date.fromordinal` / `timedelta`, `str.strip`,
`str.split(',')` and `','.join` — are embedded from their CPython semantics
(`Lib/_strptime.py` numeral patterns, `Lib/datetime.py` calendar functions).
Randomness (`random.randint`) is modelled by passing the drawn values as
explicit arguments; theorems constrain them to `randint`'s inclusive range.
-/

/-- Characters Python `str.strip()` strips and the regex class `\s` matches:
the six ASCII whitespace characters plus the file/group/record/unit
separators `\x1c`-`\x1f` and NEL `\x85`.  (Further non-ASCII Unicode
whitespace exists; no input in scope contains it.) -/
def pyIsSpace (c : Char) : Bool :=
  c = ' ' || c = '\t' || c = '\n' || c = '\r' || c = '\x0b' || c = '\x0c' ||
  c = '\x1c' || c = '\x1d' || c = '\x1e' || c = '\x1f' || c = '\x85'

/-- Python `str.strip()` on a list of characters. -/
def pyStrip (s : List Char) : List Char :=
  ((s.dropWhile pyIsSpace).reverse.dropWhile pyIsSpace).reverse

/-- Python `str.split(',')`: always yields at least one (possibly empty) part. -/
def splitComma : List Char → List (List Char)
  | [] => [[]]
  | c :: cs =>
    if c = ',' then [] :: splitComma cs
    else
      match splitComma cs with
      | [] => [[c]]
      | p :: ps => (c :: p) :: ps

/-- Python `','.join(parts)`. -/
def joinComma : List (List Char) → List Char
  | [] => []
  | [p] => p
  | p :: ps => p ++ ',' :: joinComma ps

/-! ## Calendar (CPython `Lib/datetime.py` helpers) -/

/-- Proleptic-Gregorian leap-year rule (CPython `datetime._is_leap`). -/
def isLeap (y : Nat) : Prop := y % 4 = 0 ∧ (y % 100 ≠ 0 ∨ y % 400 = 0)

instance (y : Nat) : Decidable (isLeap y) := by unfold isLeap; infer_instance

def daysInYear (y : Nat) : Nat := if isLeap y then 366 else 365

/-- Month lengths for year `y` (CPython `datetime._DAYS_IN_MONTH`). -/
def monthLengths (y : Nat) : List Nat :=
  [31, if isLeap y then 29 else 28, 31, 30, 31, 30, 31, 31, 30, 31, 30, 31]

/-- CPython `datetime._days_in_month` (months are 1-based; the default is
never reached for months 1..12, the only ones the program produces). -/
def daysInMonth (y m : Nat) : Nat := (monthLengths y).getD (m - 1) 0

/-- CPython `datetime._days_before_year`: days before January 1 of year `y`. -/
def daysBeforeYear (y : Nat) : Nat :=
  (y - 1) * 365 + (y - 1) / 4 + (y - 1) / 400 - (y - 1) / 100

/-- CPython `datetime._days_before_month`. -/
def daysBeforeMonth (y m : Nat) : Nat := ((monthLengths y).take (m - 1)).sum

/-- CPython `date.toordinal` (`_ymd2ord`): 0001-01-01 has ordinal 1. -/
def toordinal (y m d : Nat) : Nat := daysBeforeYear y + daysBeforeMonth y m + d

/-- Ordinal of 9999-12-31, the largest `datetime` ordinal (`date.max`). -/
def maxOrdinal : Nat := 3652059

/-- Turn a 0-based day-of-year into a (month, 1-based day) pair by walking the
month-length table; the linear scan realises the month lookup of CPython
`datetime._ord2ymd`. -/
def splitDoy (doy : Nat) : List Nat → Nat × Nat
  | [] => (1, doy + 1)
  | len :: rest =>
    if doy < len then (1, doy + 1)
    else
      let p := splitDoy (doy - len) rest
      (p.1 + 1, p.2)

/-- CPython `date.fromordinal` (`_ord2ymd`): 400/100/4/1-year block
decomposition of the proleptic-Gregorian calendar.  Capping the 100-year and
1-year quotients at 3 is the standard guard for the last day of a 400-year
(resp. 4-year) cycle, equivalent to CPython's `n100 == 4 or n1 == 4` branch. -/
def dateFromOrdinal (ord : Nat) : Nat × Nat × Nat :=
  let n := ord - 1
  let n400 := n / 146097
  let r1 := n % 146097
  let n100 := min (r1 / 36524) 3
  let r2 := r1 - 36524 * n100
  let n4 := r2 / 1461
  let r3 := r2 % 1461
  let n1 := min (r3 / 365) 3
  let doy := r3 - 365 * n1
  let y := 400 * n400 + 100 * n100 + 4 * n4 + n1 + 1
  let md := splitDoy doy (monthLengths y)
  (y, md.1, md.2)

/-! ## Date/time values -/

/-- The fields of a CPython `datetime.datetime` relevant to this program. -/
structure PyDateTime where
  year : Nat
  month : Nat
  day : Nat
  hour : Nat
  minute : Nat
  second : Nat
deriving DecidableEq

def toordinalDT (p : PyDateTime) : Nat := toordinal p.year p.month p.day

/-- CPython `date.weekday()`: Monday is 0, Sunday is 6. -/
def weekdayDT (p : PyDateTime) : Nat := (toordinalDT p + 6) % 7

/-- `datetime + timedelta(days=r)`: ordinal arithmetic on the date component,
time-of-day untouched; out of the `datetime` range it raises `OverflowError`
(modelled as `none`). -/
def addDays (p : PyDateTime) (r : Int) : Option PyDateTime :=
  let o : Int := (toordinalDT p : Int) + r
  if 1 ≤ o ∧ o ≤ (maxOrdinal : Int) then
    let t := dateFromOrdinal o.toNat
    some ⟨t.1, t.2.1, t.2.2, p.hour, p.minute, p.second⟩
  else none

/-! ## Date codec (CPython `Lib/_strptime.py` and `strftime`)

`strptime` compiles the format into a regex (`TimeRE.pattern`): runs of
whitespace in the format are replaced by `\s+`, every other non-directive
character is an escaped literal, each directive becomes its named numeral
pattern, and the result is compiled with `IGNORECASE` and backtracking-matched
at the start of the data; leftover text ("unconverted data") is an error.
Missing fields default to 1900-01-01 00:00:00, and the resulting fields must
form a valid `datetime`. -/

inductive Fmt where
  | lit (c : Char)
  | ws (run : List Char)
  | Y
  | Mon
  | Day
  | Hr
  | Min
  | Sec
deriving DecidableEq

/-- Directive table of the modelled fragment of CPython `TimeRE` (the
directives the spec's pattern language uses: four-digit year, two-digit
month/day and optional hour/minute/second); `%%` is a literal percent sign.
CPython knows further directives (`%y`, `%j`, `%b`, …); patterns using them
are outside this embedding, so every codec-dependent theorem is conditioned
on `compileFormat`/`strptime` succeeding in the model.  An unknown directive
character is a `ValueError` in CPython as well. -/
def dirOf (c : Char) : Option Fmt :=
  if c = 'Y' then some Fmt.Y
  else if c = 'm' then some Fmt.Mon
  else if c = 'd' then some Fmt.Day
  else if c = 'H' then some Fmt.Hr
  else if c = 'M' then some Fmt.Min
  else if c = 'S' then some Fmt.Sec
  else if c = '%' then some (Fmt.lit '%')
  else none

/-- Prepend a whitespace character, merging into a following whitespace token
so that runs stay maximal (one `\s+` per run, as `TimeRE.pattern` produces). -/
def pushWs (c : Char) (fs : List Fmt) : List Fmt :=
  match fs with
  | Fmt.ws run :: fs' => Fmt.ws (c :: run) :: fs'
  | _ => Fmt.ws [c] :: fs

/-- Compile the format string: `%`-directives via `dirOf`; maximal whitespace
runs collapse into one `Fmt.ws` token (CPython's `TimeRE.pattern` rewrites
every whitespace run in the format to a single `\s+`), keeping the original
characters for `strftime`, which renders them verbatim; anything else is a
literal character. -/
def parseFormat : List Char → Option (List Fmt)
  | [] => some []
  | c :: rest =>
    if c = '%' then
      match rest with
      | [] => none
      | d :: rest' =>
        match dirOf d with
        | none => none
        | some f =>
          match parseFormat rest' with
          | none => none
          | some fs => some (f :: fs)
    else
      match parseFormat rest with
      | none => none
      | some fs =>
        if pyIsSpace c then some (pushWs c fs)
        else some (Fmt.lit c :: fs)

/-- A repeated directive makes `TimeRE` emit a duplicate named group, which
the regex compiler rejects (an error caught as a masking failure). -/
def hasDupDir (fs : List Fmt) : Bool :=
  let dirs := fs.filter (fun f =>
    match f with
    | Fmt.lit _ => false
    | Fmt.ws _ => false
    | _ => true)
  ¬ dirs.Nodup

def compileFormat (pat : List Char) : Option (List Fmt) :=
  match parseFormat pat with
  | none => none
  | some fs => if hasDupDir fs then none else some fs

/-- Numeric value of a digit string. -/
def digitsVal (cs : List Char) : Nat :=
  cs.foldl (fun a c => a * 10 + (c.toNat - 48)) 0

/-- Take exactly `k` leading digits, if present. -/
def takeDigits (k : Nat) (cs : List Char) : Option (Nat × List Char) :=
  let pre := cs.take k
  if pre.length = k ∧ pre.all Char.isDigit then some (digitsVal pre, cs.drop k)
  else none

/-- Two-digit candidate whose value must lie in `[lo, hi]` (the union of the
two-digit regex alternatives of a directive). -/
def cand2 (lo hi : Nat) (cs : List Char) : List (Nat × List Char) :=
  match takeDigits 2 cs with
  | some p => if lo ≤ p.1 ∧ p.1 ≤ hi then [p] else []
  | none => []

/-- One-digit candidate whose value must lie in `[lo, hi]`. -/
def cand1 (lo hi : Nat) (cs : List Char) : List (Nat × List Char) :=
  match takeDigits 1 cs with
  | some p => if lo ≤ p.1 ∧ p.1 ≤ hi then [p] else []
  | none => []

/-- The `| [1-9]` alternative of `%d`: a space followed by a nonzero digit. -/
def candSpace1 (cs : List Char) : List (Nat × List Char) :=
  match cs with
  | ' ' :: c :: rest => if '1' ≤ c ∧ c ≤ '9' then [(c.toNat - 48, rest)] else []
  | _ => []

/-- The `\s+` of a collapsed whitespace run: one or more whitespace
characters, greedy (longest first), captured value unused (0). -/
def wsCandidates (cs : List Char) : List (Nat × List Char) :=
  let n := (cs.takeWhile pyIsSpace).length
  (List.range n).map fun i => (0, cs.drop (n - i))

/-- Candidate matches of one directive, in regex alternation order (longest
first).  The numeral patterns are exactly CPython `TimeRE`'s:
`%Y : \d\d\d\d`, `%m : 1[0-2]|0[1-9]|[1-9]`,
`%d : 3[01]|[12]\d|0[1-9]|[1-9]| [1-9]`, `%H : 2[0-3]|[0-1]\d|\d`,
`%M : [0-5]\d|\d`, `%S : 6[0-1]|[0-5]\d|\d`. -/
def numCandidates : Fmt → List Char → List (Nat × List Char)
  | Fmt.Y, cs =>
    match takeDigits 4 cs with
    | some p => [p]
    | none => []
  | Fmt.Mon, cs => cand2 1 12 cs ++ cand1 1 9 cs
  | Fmt.Day, cs => cand2 1 31 cs ++ cand1 1 9 cs ++ candSpace1 cs
  | Fmt.Hr, cs => cand2 0 23 cs ++ cand1 0 9 cs
  | Fmt.Min, cs => cand2 0 59 cs ++ cand1 0 9 cs
  | Fmt.Sec, cs => cand2 0 61 cs ++ cand1 0 9 cs
  | Fmt.ws _, cs => wsCandidates cs
  | Fmt.lit _, _ => []

/-- Fields captured while matching (regex named groups). -/
structure RawFields where
  Y : Option Nat := none
  Mon : Option Nat := none
  Day : Option Nat := none
  Hr : Option Nat := none
  Min : Option Nat := none
  Sec : Option Nat := none
deriving DecidableEq

def emptyFields : RawFields := {}

def setField (acc : RawFields) (f : Fmt) (v : Nat) : RawFields :=
  match f with
  | Fmt.Y => { acc with Y := some v }
  | Fmt.Mon => { acc with Mon := some v }
  | Fmt.Day => { acc with Day := some v }
  | Fmt.Hr => { acc with Hr := some v }
  | Fmt.Min => { acc with Min := some v }
  | Fmt.Sec => { acc with Sec := some v }
  | Fmt.lit _ => acc
  | Fmt.ws _ => acc

/-- Try the candidates of one directive in order, committing to the first one
under which the rest of the pattern matches (regex backtracking). -/
def tryCands (next : List Char → RawFields → Option (RawFields × List Char))
    (f : Fmt) (acc : RawFields) :
    List (Nat × List Char) → Option (RawFields × List Char)
  | [] => none
  | p :: rest =>
    match next p.2 (setField acc f p.1) with
    | some x => some x
    | none => tryCands next f acc rest

/-- Backtracking matcher: first match of the whole compiled pattern at the
start of the data, returning captured fields and the unconsumed suffix.
Literals compare case-insensitively (`TimeRE` compiles with `IGNORECASE`);
a whitespace token is `\s+`. -/
def matchFmts : List Fmt → List Char → RawFields → Option (RawFields × List Char)
  | [], cs, acc => some (acc, cs)
  | Fmt.lit ch :: fs, cs, acc =>
    match cs with
    | [] => none
    | c :: rest => if c.toLower = ch.toLower then matchFmts fs rest acc else none
  | Fmt.ws run :: fs, cs, acc =>
    tryCands (matchFmts fs) (Fmt.ws run) acc (numCandidates (Fmt.ws run) cs)
  | Fmt.Y :: fs, cs, acc => tryCands (matchFmts fs) Fmt.Y acc (numCandidates Fmt.Y cs)
  | Fmt.Mon :: fs, cs, acc => tryCands (matchFmts fs) Fmt.Mon acc (numCandidates Fmt.Mon cs)
  | Fmt.Day :: fs, cs, acc => tryCands (matchFmts fs) Fmt.Day acc (numCandidates Fmt.Day cs)
  | Fmt.Hr :: fs, cs, acc => tryCands (matchFmts fs) Fmt.Hr acc (numCandidates Fmt.Hr cs)
  | Fmt.Min :: fs, cs, acc => tryCands (matchFmts fs) Fmt.Min acc (numCandidates Fmt.Min cs)
  | Fmt.Sec :: fs, cs, acc => tryCands (matchFmts fs) Fmt.Sec acc (numCandidates Fmt.Sec cs)

/-- Build the `datetime` from captured fields: `strptime` defaults are
1900-01-01 00:00:00, and the `datetime` constructor validates every field
(`%S` admits the leap seconds 60 and 61, which the constructor then
rejects). -/
def mkDT (flds : RawFields) : Option PyDateTime :=
  let y := flds.Y.getD 1900
  let mo := flds.Mon.getD 1
  let d := flds.Day.getD 1
  let h := flds.Hr.getD 0
  let mi := flds.Min.getD 0
  let s := flds.Sec.getD 0
  if 1 ≤ y ∧ y ≤ 9999 ∧ 1 ≤ mo ∧ mo ≤ 12 ∧ 1 ≤ d ∧ d ≤ daysInMonth y mo ∧
      h ≤ 23 ∧ mi ≤ 59 ∧ s ≤ 59 then
    some ⟨y, mo, d, h, mi, s⟩
  else none

def strptimeFmts (data : List Char) (fmts : List Fmt) : Option PyDateTime :=
  match matchFmts fmts data emptyFields with
  | some (flds, []) => mkDT flds
  | _ => none

/-- `datetime.strptime(data, pat)`, `None` on any error. -/
def strptime (data pat : List Char) : Option PyDateTime :=
  match compileFormat pat with
  | none => none
  | some fmts => strptimeFmts data fmts

/-- Zero-padded two-digit rendering (`%m %d %H %M %S`). -/
def pad2 (n : Nat) : List Char :=
  [Nat.digitChar (n / 10), Nat.digitChar (n % 10)]

/-- Four-digit rendering, used by `padY` for years 1000-9999. -/
def pad4 (n : Nat) : List Char :=
  [Nat.digitChar (n / 1000), Nat.digitChar (n / 100 % 10),
   Nat.digitChar (n / 10 % 10), Nat.digitChar (n % 10)]

/-- `strftime("%Y")` as CPython-on-glibc emits it: the year's decimal digits
without zero-padding (`datetime(202,1,5).strftime("%Y")` is `"202"`).  Years
are at most 9999 in `datetime`, so the final branch is unreachable from the
program. -/
def padY (n : Nat) : List Char :=
  if n < 10 then [Nat.digitChar n]
  else if n < 100 then [Nat.digitChar (n / 10), Nat.digitChar (n % 10)]
  else if n < 1000 then
    [Nat.digitChar (n / 100), Nat.digitChar (n / 10 % 10), Nat.digitChar (n % 10)]
  else if n < 10000 then pad4 n
  else Nat.toDigits 10 n

/-- Rendering of one token: numeric directives zero-pad to two digits, `%Y`
is the unpadded year, literals and whitespace runs are emitted verbatim. -/
def renderFmt (v : PyDateTime) : Fmt → List Char
  | Fmt.lit c => [c]
  | Fmt.ws run => run
  | Fmt.Y => padY v.year
  | Fmt.Mon => pad2 v.month
  | Fmt.Day => pad2 v.day
  | Fmt.Hr => pad2 v.hour
  | Fmt.Min => pad2 v.minute
  | Fmt.Sec => pad2 v.second

def strftimeFmts (v : PyDateTime) : List Fmt → List Char
  | [] => []
  | f :: fs => renderFmt v f ++ strftimeFmts v fs

/-- `value.strftime(pat)` for the directives the codec supports. -/
def strftime (v : PyDateTime) (pat : List Char) : Option (List Char) :=
  match compileFormat pat with
  | none => none
  | some fmts => some (strftimeFmts v fmts)

/-! ## Masking strategies (src/main.py lines 30-77)

`random.randint(a, b)` draws are passed in as arguments; a theorem hypothesis
`-shift_days ≤ r ≤ shift_days` (resp. `rh ≤ 23` …) states exactly the
inclusive range `randint` guarantees. -/

/-- `shift_date` (src/main.py:30-42) with the `random.randint(-shift_days,
shift_days)` draw `r` made explicit. -/
def shift_date (date_str date_format : List Char) (_shift_days r : Int) :
    Option (List Char) :=
  match strptime date_str date_format with
  | none => none
  | some p =>
    match addDays p r with
    | none => none
    | some q => strftime q date_format

inductive BucketInterval where
  | day
  | week
  | month
deriving DecidableEq

/-- `bucket_date` (src/main.py:44-63). -/
def bucket_date (date_str date_format : List Char) (iv : BucketInterval) :
    Option (List Char) :=
  match strptime date_str date_format with
  | none => none
  | some p =>
    match iv with
    | BucketInterval.day => strftime p date_format
    | BucketInterval.week =>
      match addDays p (-(weekdayDT p : Int)) with
      | none => none
      | some q => strftime q date_format
    | BucketInterval.month => strftime { p with day := 1 } date_format

/-- `randomize_time` (src/main.py:65-77) with the three `randint` draws made
explicit; `datetime.time` validates its arguments. -/
def randomize_time (date_str date_format : List Char) (rh rm rs : Nat) :
    Option (List Char) :=
  match strptime date_str date_format with
  | none => none
  | some p =>
    if rh ≤ 23 ∧ rm ≤ 59 ∧ rs ≤ 59 then
      strftime ⟨p.year, p.month, p.day, rh, rm, rs⟩ date_format
    else none

/-! ## Line processor (src/main.py `process_data`, lines 79-123) -/

structure Config where
  column_index : Nat
  date_format : List Char
  shift_days : Int
  bucket_interval : Option BucketInterval
  randomize_time_flag : Bool

/-- The random draws consumed while masking one line. -/
structure Draws where
  shift : Int
  h : Nat
  m : Nat
  s : Nat

/-- The strategy dispatch of src/main.py:97-106: `if shift_days > 0 … elif
bucket_interval … elif randomize_time_flag … else` unmasked. -/
def applyMask (cfg : Config) (dr : Draws) (date_str : List Char) :
    Option (List Char) :=
  if 0 < cfg.shift_days then
    shift_date date_str cfg.date_format cfg.shift_days dr.shift
  else
    match cfg.bucket_interval with
    | some iv => bucket_date date_str cfg.date_format iv
    | none =>
      if cfg.randomize_time_flag then
        randomize_time date_str cfg.date_format dr.h dr.m dr.s
      else some date_str

/-- One iteration of the `for line in infile` loop (src/main.py:83-114): the
characters written to the output for this input line. -/
def processLine (cfg : Config) (dr : Draws) (raw : List Char) : List Char :=
  let line := pyStrip raw
  if line = [] then ['\n']
  else
    let parts := splitComma line
    if parts.length ≤ cfg.column_index then line ++ ['\n']
    else
      let date_str := pyStrip (parts.getD cfg.column_index [])
      match applyMask cfg dr date_str with
      | none => line ++ ['\n']
      | some masked => joinComma (parts.set cfg.column_index masked) ++ ['\n']

/-- The whole per-line loop of `process_data`: every line is processed
independently; no failure on one line stops the following lines. -/
def process_data (cfg : Config) : List Draws → List (List Char) → List (List Char)
  | _, [] => []
  | [], _ :: _ => []
  | dr :: drs, raw :: raws => processLine cfg dr raw :: process_data cfg drs raws

/-! ## main (src/main.py:125-148) -/

structure Args where
  shift_days : Int
  bucket_interval : Option BucketInterval
  input_file : Option (List Char)
  output_file : Option (List Char)
  date_format : List Char
  column_index : Nat
  randomize_time_flag : Bool

/-- Outcome of `main`.  `usage_error` is `parser.error(...)`: argparse prints
the usage message and terminates the process with status 2, so the
`sys.exit(1)` lines after the two `parser.error` calls are unreachable;
no file has been opened on this path.  `help_exit` is the
`parser.print_help(); sys.exit(1)` branch.  `processed` means `process_data`
ran (both files were opened); its exit status is 0, or 1 when `process_data`
reported failure. -/
inductive MainResult where
  | usage_error (exit_code : Nat)
  | help_exit (exit_code : Nat)
  | processed (exit_code : Nat)
deriving DecidableEq

/-- `main` (src/main.py:125-148); `process_result` abstracts the value
returned by `process_data`, which depends on the file system. -/
def pyMain (args : Args) (process_result : Nat) : MainResult :=
  if ¬(0 < args.shift_days ∨ args.bucket_interval.isSome ∨ args.randomize_time_flag) then
    MainResult.usage_error 2
  else if 0 < args.shift_days ∧ args.bucket_interval.isSome then
    MainResult.usage_error 2
  else if args.input_file.isSome ∧ args.output_file.isSome then
    MainResult.processed (if process_result ≠ 0 then 1 else 0)
  else
    MainResult.help_exit 1

/-! ## Derived notions used by the verification -/

/-- Field of `v` named by a directive (0 for literals and whitespace,
unused). -/
def fieldOf (v : PyDateTime) : Fmt → Nat
  | Fmt.Y => v.year
  | Fmt.Mon => v.month
  | Fmt.Day => v.day
  | Fmt.Hr => v.hour
  | Fmt.Min => v.minute
  | Fmt.Sec => v.second
  | Fmt.lit _ => 0
  | Fmt.ws _ => 0

/-- A token list does not begin with a whitespace token. -/
def headNotWs : List Fmt → Prop
  | Fmt.ws _ :: _ => False
  | _ => True

/-- Shape invariant of `parseFormat`'s output: literal characters are
non-whitespace, whitespace tokens hold nonempty all-whitespace runs, and no
two whitespace tokens are adjacent (runs are maximal). -/
def wfFormat : List Fmt → Prop
  | [] => True
  | Fmt.lit c :: fs => pyIsSpace c = false ∧ wfFormat fs
  | Fmt.ws run :: fs =>
    run ≠ [] ∧ (∀ c ∈ run, pyIsSpace c = true) ∧ headNotWs fs ∧ wfFormat fs
  | _ :: fs => wfFormat fs

/-- Accumulated captures after matching the rendering of `v`. -/
def setAll (acc : RawFields) (v : PyDateTime) : List Fmt → RawFields
  | [] => acc
  | f :: fs => setAll (setField acc f (fieldOf v f)) v fs

/-- Field ranges that make the canonical rendering re-match digit-exactly. -/
def rangeOK (v : PyDateTime) : Prop :=
  v.year ≤ 9999 ∧ 1 ≤ v.month ∧ v.month ≤ 12 ∧ 1 ≤ v.day ∧ v.day ≤ 31 ∧
  v.hour ≤ 23 ∧ v.minute ≤ 59 ∧ v.second ≤ 59

/-- The validation performed by the `datetime` constructor. -/
def validDT (v : PyDateTime) : Prop :=
  1 ≤ v.year ∧ v.year ≤ 9999 ∧ 1 ≤ v.month ∧ v.month ≤ 12 ∧ 1 ≤ v.day ∧
  v.day ≤ daysInMonth v.year v.month ∧ v.hour ≤ 23 ∧ v.minute ≤ 59 ∧ v.second ≤ 59

/-- Every field is either named by a directive of the pattern or equal to the
`strptime` default (1900-01-01 00:00:00). -/
def compatDT (v : PyDateTime) (fmts : List Fmt) : Prop :=
  (Fmt.Y ∈ fmts ∨ v.year = 1900) ∧ (Fmt.Mon ∈ fmts ∨ v.month = 1) ∧
  (Fmt.Day ∈ fmts ∨ v.day = 1) ∧ (Fmt.Hr ∈ fmts ∨ v.hour = 0) ∧
  (Fmt.Min ∈ fmts ∨ v.minute = 0) ∧ (Fmt.Sec ∈ fmts ∨ v.second = 0)


/-! ## Calendar correctness (supporting lemmas) -/

theorem daysBeforeYear_400 (a b : Nat) (hb : 1 <= b) :
    daysBeforeYear (400 * a + b) = 146097 * a + daysBeforeYear b := by
  unfold daysBeforeYear
  omega

theorem within400 (r1 a r2 b r3 c doy y : Nat)
    (h : r1 < 146097)
    (ha : a = min (r1 / 36524) 3) (hr2 : r2 = r1 - 36524 * a)
    (hb : b = r2 / 1461) (hr3 : r3 = r2 % 1461)
    (hc : c = min (r3 / 365) 3) (hdoy : doy = r3 - 365 * c)
    (hy : y = 100 * a + 4 * b + c + 1) :
    daysBeforeYear y + doy = r1 ∧ doy < daysInYear y ∧ 1 ≤ y ∧ y ≤ 400 := by
  by_cases hend : r1 = 146096
  · have ha' : a = 3 := by omega
    have hr2' : r2 = 36524 := by omega
    have hb' : b = 24 := by omega
    have hr3' : r3 = 1460 := by omega
    have hc' : c = 3 := by omega
    have hdoy' : doy = 365 := by omega
    have hy' : y = 400 := by omega
    subst ha' hr2' hb' hr3' hc' hdoy' hy' hend
    refine ⟨by norm_num [daysBeforeYear], ?_, by norm_num, by norm_num⟩
    have : isLeap 400 := by unfold isLeap; omega
    simp [daysInYear, this]
  · have ha' : a = r1 / 36524 := by omega
    have ha3 : a ≤ 3 := by omega
    have hr2a : r2 = r1 - 36524 * a := hr2
    have hr2lt : r2 < 36524 := by omega
    have hb24 : b ≤ 24 := by omega
    have hr3b : r3 ≤ 1460 := by omega
    by_cases hr3end : r3 = 1460
    · have hc' : c = 3 := by omega
      have hdoy' : doy = 365 := by omega
      have hb23 : b ≤ 23 := by omega
      have hleap : isLeap y := by unfold isLeap; omega
      have h366 : daysInYear y = 366 := by simp [daysInYear, hleap]
      have hy1 : y - 1 = 100 * a + 4 * b + 3 := by omega
      have hd4 : (y - 1) / 4 = 25 * a + b := by omega
      have hd400 : (y - 1) / 400 = 0 := by omega
      have hd100 : (y - 1) / 100 = a := by omega
      refine ⟨?_, by omega, by omega, by omega⟩
      unfold daysBeforeYear
      omega
    · have hc' : c = r3 / 365 := by omega
      have hc3 : c ≤ 3 := by omega
      have hdoy' : doy = r3 % 365 := by omega
      have h365 : 365 ≤ daysInYear y := by unfold daysInYear; split_ifs <;> omega
      have hy1 : y - 1 = 100 * a + 4 * b + c := by omega
      have hd4 : (y - 1) / 4 = 25 * a + b := by omega
      have hd400 : (y - 1) / 400 = 0 := by omega
      have hd100 : (y - 1) / 100 = a := by omega
      refine ⟨?_, by omega, by omega, by omega⟩
      unfold daysBeforeYear
      omega

theorem isLeap_congr (k b : Nat) : isLeap (400 * k + b) ↔ isLeap b := by
  unfold isLeap; omega

theorem monthLengths_congr (k b : Nat) : monthLengths (400 * k + b) = monthLengths b := by
  unfold monthLengths
  by_cases h : isLeap b
  · rw [if_pos h, if_pos ((isLeap_congr k b).mpr h)]
  · rw [if_neg h, if_neg (fun hc => h ((isLeap_congr k b).mp hc))]

theorem daysInYear_congr (k b : Nat) : daysInYear (400 * k + b) = daysInYear b := by
  unfold daysInYear
  by_cases h : isLeap b
  · rw [if_pos h, if_pos ((isLeap_congr k b).mpr h)]
  · rw [if_neg h, if_neg (fun hc => h ((isLeap_congr k b).mp hc))]

theorem monthLengths_sum (y : Nat) : (monthLengths y).sum = daysInYear y := by
  unfold monthLengths daysInYear
  by_cases h : isLeap y <;> simp [h]

theorem monthLengths_length (y : Nat) : (monthLengths y).length = 12 := by
  unfold monthLengths; by_cases h : isLeap y <;> simp [h]

theorem splitDoy_spec : ∀ (lens : List Nat) (doy : Nat), doy < lens.sum →
    1 ≤ (splitDoy doy lens).1 ∧ (splitDoy doy lens).1 ≤ lens.length ∧
    (lens.take ((splitDoy doy lens).1 - 1)).sum + (splitDoy doy lens).2 = doy + 1 ∧
    1 ≤ (splitDoy doy lens).2 ∧ (splitDoy doy lens).2 ≤ lens.getD ((splitDoy doy lens).1 - 1) 0 := by
  intro lens
  induction lens with
  | nil => intro doy h; simp at h
  | cons len rest ih =>
    intro doy h
    by_cases hlt : doy < len
    · simp [splitDoy, hlt]
      omega
    · have hrec := ih (doy - len) (by simp [List.sum_cons] at h; omega)
      simp only [splitDoy, if_neg hlt]
      rcases hrec with ⟨h1, h2, h3, h4, h5⟩
      refine ⟨by omega, by simpa using by omega, ?_, by omega, ?_⟩
      · have hm : (splitDoy (doy - len) rest).1 - 1 + 1 = (splitDoy (doy - len) rest).1 := by omega
        simp only [Nat.add_sub_cancel]
        rw [← hm, List.take_succ_cons, List.sum_cons]
        omega
      · simp only [Nat.add_sub_cancel]
        rw [← Nat.succ_pred_eq_of_pos h1]
        simpa using h5

theorem dateFromOrdinal_spec (n : Nat) (hn : 1 ≤ n) :
    toordinal (dateFromOrdinal n).1 (dateFromOrdinal n).2.1 (dateFromOrdinal n).2.2 = n ∧
    1 ≤ (dateFromOrdinal n).1 ∧
    1 ≤ (dateFromOrdinal n).2.1 ∧ (dateFromOrdinal n).2.1 ≤ 12 ∧
    1 ≤ (dateFromOrdinal n).2.2 ∧
    (dateFromOrdinal n).2.2 ≤ daysInMonth (dateFromOrdinal n).1 (dateFromOrdinal n).2.1 := by
  unfold dateFromOrdinal
  simp only []
  set n0 := n - 1 with hn0
  set n400 := n0 / 146097 with hn400
  set r1 := n0 % 146097 with hr1
  set n100 := min (r1 / 36524) 3 with hn100
  set r2 := r1 - 36524 * n100 with hr2
  set n4 := r2 / 1461 with hn4
  set r3 := r2 % 1461 with hr3
  set n1 := min (r3 / 365) 3 with hn1
  set doy := r3 - 365 * n1 with hdoy
  set y := 400 * n400 + 100 * n100 + 4 * n4 + n1 + 1 with hy
  set yb := 100 * n100 + 4 * n4 + n1 + 1 with hyb
  have hyy : y = 400 * n400 + yb := by omega
  have hblock := within400 r1 n100 r2 n4 r3 n1 doy yb
    (by omega) rfl rfl rfl rfl rfl rfl rfl
  obtain ⟨hsum, hdlt, hyb1, hyb400⟩ := hblock
  have hml : monthLengths y = monthLengths yb := by rw [hyy]; exact monthLengths_congr _ _
  have hdy : daysInYear y = daysInYear yb := by rw [hyy]; exact daysInYear_congr _ _
  have hdby : daysBeforeYear y = 146097 * n400 + daysBeforeYear yb := by
    rw [hyy]; exact daysBeforeYear_400 _ _ hyb1
  have hdsum : doy < (monthLengths y).sum := by
    rw [monthLengths_sum, hdy]; exact hdlt
  have hsd := splitDoy_spec (monthLengths y) doy hdsum
  obtain ⟨hm1, hm12, htake, hd1, hdle⟩ := hsd
  set md := splitDoy doy (monthLengths y) with hmd
  have hlen : (monthLengths y).length = 12 := monthLengths_length y
  refine ⟨?_, by omega, hm1, by omega, hd1, ?_⟩
  · unfold toordinal daysBeforeMonth
    have hnsplit : n0 = 146097 * n400 + r1 := by omega
    rw [hdby]
    omega
  · unfold daysInMonth
    exact hdle

theorem take_sum_getD_le (l : List Nat) : ∀ i, i < l.length →
    (l.take i).sum + l.getD i 0 ≤ l.sum := by
  induction l with
  | nil => intro i h; simp at h
  | cons x xs ih =>
    intro i h
    cases i with
    | zero =>
      simp only [List.take_zero, List.sum_nil, List.getD_cons_zero, List.sum_cons, Nat.zero_add]
      omega
    | succ j =>
      have := ih j (by simpa using h)
      simp only [List.take_succ_cons, List.sum_cons, List.getD_cons_succ]
      omega

theorem daysInMonth_le_31 (y m : Nat) (h1 : 1 ≤ m) (h2 : m ≤ 12) :
    daysInMonth y m ≤ 31 := by
  unfold daysInMonth monthLengths
  by_cases hL : isLeap y <;> interval_cases m <;> simp [hL]

theorem daysInMonth_pos (y m : Nat) (h1 : 1 ≤ m) (h2 : m ≤ 12) :
    1 ≤ daysInMonth y m := by
  unfold daysInMonth monthLengths
  by_cases hL : isLeap y <;> interval_cases m <;> simp [hL]

theorem toordinal_bounds (y m d : Nat) (h1 : 1 ≤ y) (h2 : y ≤ 9999)
    (h3 : 1 ≤ m) (h4 : m ≤ 12) (h5 : 1 ≤ d) (h6 : d ≤ daysInMonth y m) :
    1 ≤ toordinal y m d ∧ toordinal y m d ≤ 3652059 := by
  unfold toordinal
  have hmd : daysBeforeMonth y m + d ≤ daysInYear y := by
    have := take_sum_getD_le (monthLengths y) (m - 1)
      (by rw [monthLengths_length]; omega)
    unfold daysBeforeMonth
    unfold daysInMonth at h6
    rw [monthLengths_sum] at this
    omega
  have hdy : daysInYear y ≤ 366 := by unfold daysInYear; split_ifs <;> omega
  constructor
  · omega
  · have hdby : daysBeforeYear y + daysInYear y ≤ 3652059 := by
      unfold daysBeforeYear daysInYear
      split_ifs with hL
      · unfold isLeap at hL; omega
      · unfold isLeap at hL; omega
    omega

/-! ## Codec correctness (supporting lemmas) -/


theorem addDays_spec (p : PyDateTime) (r : Int) (q : PyDateTime)
    (h : addDays p r = some q) :
    (toordinalDT q : Int) = (toordinalDT p : Int) + r ∧
    q.hour = p.hour ∧ q.minute = p.minute ∧ q.second = p.second := by
  unfold addDays at h
  dsimp only at h
  split_ifs at h with hc
  · have h1 : (1 : Int) ≤ (toordinalDT p : Int) + r := hc.1
    have hq : q = ⟨(dateFromOrdinal ((toordinalDT p : Int) + r).toNat).1,
        (dateFromOrdinal ((toordinalDT p : Int) + r).toNat).2.1,
        (dateFromOrdinal ((toordinalDT p : Int) + r).toNat).2.2,
        p.hour, p.minute, p.second⟩ := by
      exact (Option.some_injective _ h).symm
    have hord := dateFromOrdinal_spec ((toordinalDT p : Int) + r).toNat (by omega)
    subst hq
    refine ⟨?_, rfl, rfl, rfl⟩
    show ((toordinal (dateFromOrdinal ((toordinalDT p : Int) + r).toNat).1
        (dateFromOrdinal ((toordinalDT p : Int) + r).toNat).2.1
        (dateFromOrdinal ((toordinalDT p : Int) + r).toNat).2.2 : Nat) : Int) =
      (toordinalDT p : Int) + r
    rw [hord.1]
    omega

theorem addDays_isSome (p : PyDateTime) (r : Int)
    (h1 : 1 ≤ (toordinalDT p : Int) + r) (h2 : (toordinalDT p : Int) + r ≤ (maxOrdinal : Int)) :
    ∃ q, addDays p r = some q := by
  unfold addDays
  dsimp only
  rw [if_pos ⟨h1, h2⟩]
  exact ⟨_, rfl⟩

theorem digitChar_isDigit : ∀ n < 10, (Nat.digitChar n).isDigit = true := by decide

theorem digitChar_toNat : ∀ n < 10, (Nat.digitChar n).toNat = 48 + n := by decide

theorem takeDigits2_pad2 (n : Nat) (h : n ≤ 99) (rest : List Char) :
    takeDigits 2 (pad2 n ++ rest) = some (n, rest) := by
  have h1 : n / 10 < 10 := by omega
  have h2 : n % 10 < 10 := by omega
  unfold pad2 takeDigits
  simp only [List.cons_append, List.nil_append, List.take_succ_cons, List.take_zero,
    List.drop_succ_cons, List.drop_zero, List.length_cons, List.length_nil,
    List.all_cons, List.all_nil, digitChar_isDigit _ h1, digitChar_isDigit _ h2,
    Bool.and_true, Bool.true_and, and_true, if_true]
  simp only [Option.some.injEq, Prod.mk.injEq, and_true]
  unfold digitsVal
  simp only [List.foldl_cons, List.foldl_nil, digitChar_toNat _ h1, digitChar_toNat _ h2]
  omega

theorem takeDigits4_pad4 (n : Nat) (h : n ≤ 9999) (rest : List Char) :
    takeDigits 4 (pad4 n ++ rest) = some (n, rest) := by
  have h1 : n / 1000 < 10 := by omega
  have h2 : n / 100 % 10 < 10 := by omega
  have h3 : n / 10 % 10 < 10 := by omega
  have h4 : n % 10 < 10 := by omega
  unfold pad4 takeDigits
  simp only [List.cons_append, List.nil_append, List.take_succ_cons, List.take_zero,
    List.drop_succ_cons, List.drop_zero, List.length_cons, List.length_nil,
    List.all_cons, List.all_nil, digitChar_isDigit _ h1, digitChar_isDigit _ h2,
    digitChar_isDigit _ h3, digitChar_isDigit _ h4,
    Bool.and_true, Bool.true_and, and_true, if_true]
  simp only [Option.some.injEq, Prod.mk.injEq, and_true]
  unfold digitsVal
  simp only [List.foldl_cons, List.foldl_nil, digitChar_toNat _ h1, digitChar_toNat _ h2,
    digitChar_toNat _ h3, digitChar_toNat _ h4]
  omega

theorem cand2_pad2 (lo hi n : Nat) (h : n ≤ 99) (hlo : lo ≤ n) (hhi : n ≤ hi)
    (rest : List Char) :
    cand2 lo hi (pad2 n ++ rest) = [(n, rest)] := by
  unfold cand2
  rw [takeDigits2_pad2 n h rest]
  simp [hlo, hhi]

theorem padY_eq_pad4 (n : Nat) (h1 : 1000 ≤ n) (h2 : n ≤ 9999) : padY n = pad4 n := by
  unfold padY
  rw [if_neg (by omega), if_neg (by omega), if_neg (by omega), if_pos (by omega)]

theorem digitChar_not_space : ∀ n < 16, pyIsSpace (Nat.digitChar n) = false := by
  decide

theorem takeWhile_all_append (p : Char → Bool) (run tail : List Char)
    (hall : ∀ c ∈ run, p c = true) (htail : tail.takeWhile p = []) :
    (run ++ tail).takeWhile p = run := by
  induction run with
  | nil => simpa using htail
  | cons c cs ih =>
    simp only [List.cons_append, List.takeWhile_cons, hall c (by simp),
      eq_self_iff_true, if_true]
    rw [ih (fun d hd => hall d (by simp [hd]))]

/-- A well-formed token list that does not begin with whitespace renders to a
string with no leading whitespace: its head is a literal non-whitespace
character or a decimal digit (field values stay in `datetime`'s ranges). -/
theorem strftime_headNotWs (v : PyDateTime) (hv : rangeOK v) :
    ∀ fs : List Fmt, wfFormat fs → headNotWs fs →
      (strftimeFmts v fs).takeWhile pyIsSpace = [] := by
  obtain ⟨hY, _, hMo2, _, hD2, hH, hMi, hS⟩ := hv
  intro fs hwf hn
  cases fs with
  | nil => simp [strftimeFmts]
  | cons f fs' =>
    cases f with
    | lit c =>
      simp only [wfFormat] at hwf
      simp [strftimeFmts, renderFmt, List.takeWhile_cons, hwf.1]
    | ws run => exact absurd hn (by simp [headNotWs])
    | Y =>
      simp only [strftimeFmts, renderFmt]
      unfold padY
      split_ifs with h1 h2 h3 h4
      · simp [List.takeWhile_cons, digitChar_not_space v.year (by omega)]
      · simp [List.takeWhile_cons, digitChar_not_space (v.year / 10) (by omega)]
      · simp [List.takeWhile_cons, digitChar_not_space (v.year / 100) (by omega)]
      · simp [pad4, List.takeWhile_cons, digitChar_not_space (v.year / 1000) (by omega)]
      · exact absurd hY (by omega)
    | Mon =>
      simp [strftimeFmts, renderFmt, pad2, List.takeWhile_cons,
        digitChar_not_space (v.month / 10) (by omega)]
    | Day =>
      simp [strftimeFmts, renderFmt, pad2, List.takeWhile_cons,
        digitChar_not_space (v.day / 10) (by omega)]
    | Hr =>
      simp [strftimeFmts, renderFmt, pad2, List.takeWhile_cons,
        digitChar_not_space (v.hour / 10) (by omega)]
    | Min =>
      simp [strftimeFmts, renderFmt, pad2, List.takeWhile_cons,
        digitChar_not_space (v.minute / 10) (by omega)]
    | Sec =>
      simp [strftimeFmts, renderFmt, pad2, List.takeWhile_cons,
        digitChar_not_space (v.second / 10) (by omega)]

/-- Greedy `\s+` on a rendered whitespace run followed by non-whitespace:
the first candidate consumes exactly the run. -/
theorem wsCandidates_run (run tail : List Char) (hne : run ≠ [])
    (hall : ∀ c ∈ run, pyIsSpace c = true)
    (htail : tail.takeWhile pyIsSpace = []) :
    ∃ more, wsCandidates (run ++ tail) = (0, tail) :: more := by
  unfold wsCandidates
  dsimp only
  rw [takeWhile_all_append pyIsSpace run tail hall htail]
  obtain ⟨k, hk⟩ : ∃ k, run.length = k + 1 :=
    ⟨run.length - 1, by cases run with | nil => exact absurd rfl hne | cons a l => simp⟩
  rw [hk, List.range_succ_eq_map]
  simp only [List.map_cons, Nat.sub_zero]
  rw [← hk, List.drop_left]
  exact ⟨_, rfl⟩

theorem pushWs_wf (c : Char) (hs : pyIsSpace c = true) :
    ∀ fs, wfFormat fs → wfFormat (pushWs c fs) := by
  intro fs hwf
  cases fs with
  | nil =>
    refine ⟨by simp, fun x hx => ?_, trivial, trivial⟩
    simp at hx
    subst hx
    exact hs
  | cons f0 fs' =>
    cases f0
    case ws run =>
      simp only [pushWs]
      obtain ⟨hne, hall, hh, hwf'⟩ := hwf
      refine ⟨by simp, fun x hx => ?_, hh, hwf'⟩
      rcases List.mem_cons.mp hx with rfl | hx'
      · exact hs
      · exact hall x hx'
    all_goals
      simp only [pushWs]
      refine ⟨by simp, fun x hx => ?_, trivial, hwf⟩
      simp at hx
      subst hx
      exact hs

theorem dirOf_wf (c : Char) (f : Fmt) (h : dirOf c = some f) (fs : List Fmt)
    (hwf : wfFormat fs) : wfFormat (f :: fs) := by
  unfold dirOf at h
  split_ifs at h <;> injection h with h <;> subst h <;>
    first
      | exact hwf
      | exact ⟨by decide, hwf⟩

theorem parseFormat_wf : ∀ (n : Nat) (s : List Char), s.length ≤ n →
    ∀ fs, parseFormat s = some fs → wfFormat fs := by
  intro n
  induction n with
  | zero =>
    intro s hlen fs h
    have hs : s = [] := List.eq_nil_of_length_eq_zero (Nat.le_zero.mp hlen)
    subst hs
    simp [parseFormat] at h
    subst h
    trivial
  | succ n ih =>
    intro s hlen fs h
    cases s with
    | nil =>
      simp [parseFormat] at h
      subst h
      trivial
    | cons c rest =>
      unfold parseFormat at h
      by_cases hc : c = '%'
      · rw [if_pos hc] at h
        cases rest with
        | nil => simp at h
        | cons d rest' =>
          dsimp only at h
          cases hd : dirOf d with
          | none => rw [hd] at h; simp at h
          | some f =>
            rw [hd] at h
            cases hp : parseFormat rest' with
            | none => rw [hp] at h; simp at h
            | some fs0 =>
              rw [hp] at h
              have hwf0 := ih rest' (by simp at hlen; omega) fs0 hp
              have hfs : fs = f :: fs0 := by
                simpa using (Option.some_injective _ h).symm
              subst hfs
              exact dirOf_wf d f hd fs0 hwf0
      · rw [if_neg hc] at h
        cases hp : parseFormat rest with
        | none => rw [hp] at h; simp at h
        | some fs0 =>
          rw [hp] at h
          dsimp only at h
          have hwf0 := ih rest (by simp at hlen; omega) fs0 hp
          by_cases hsp : pyIsSpace c
          · rw [if_pos hsp] at h
            have hfs : fs = pushWs c fs0 := by
              simpa using (Option.some_injective _ h).symm
            subst hfs
            exact pushWs_wf c hsp fs0 hwf0
          · rw [if_neg hsp] at h
            have hfs : fs = Fmt.lit c :: fs0 := by
              simpa using (Option.some_injective _ h).symm
            subst hfs
            exact ⟨by simpa using hsp, hwf0⟩

theorem compileFormat_wf {pat : List Char} {fmts : List Fmt}
    (h : compileFormat pat = some fmts) : wfFormat fmts := by
  unfold compileFormat at h
  cases hp : parseFormat pat with
  | none => rw [hp] at h; simp at h
  | some fs0 =>
    rw [hp] at h
    dsimp only at h
    split_ifs at h
    have hfs : fmts = fs0 := by simpa using (Option.some_injective _ h).symm
    subst hfs
    exact parseFormat_wf pat.length pat le_rfl fmts hp

theorem matchFmts_strftime (v : PyDateTime) (hv : rangeOK v) :
    ∀ (fmts : List Fmt), wfFormat fmts → (Fmt.Y ∈ fmts → 1000 ≤ v.year) →
      ∀ (acc : RawFields),
        matchFmts fmts (strftimeFmts v fmts) acc = some (setAll acc v fmts, []) := by
  obtain ⟨hY, hMo1, hMo2, hD1, hD2, hH, hMi, hS⟩ := hv
  intro fmts
  induction fmts with
  | nil => intro _ _ acc; simp [strftimeFmts, matchFmts, setAll]
  | cons f fs ih =>
    intro hwf hY4 acc
    have hY4fs : Fmt.Y ∈ fs → 1000 ≤ v.year := fun hm => hY4 (List.mem_cons_of_mem _ hm)
    cases f with
    | lit c =>
      simp only [wfFormat] at hwf
      simp only [strftimeFmts, renderFmt, List.cons_append, List.nil_append,
        matchFmts, if_pos rfl, setAll, setField, fieldOf]
      exact ih hwf.2 hY4fs acc
    | ws run =>
      simp only [wfFormat] at hwf
      obtain ⟨hne, hall, hhead, hwfs⟩ := hwf
      have htail := strftime_headNotWs v ⟨hY, hMo1, hMo2, hD1, hD2, hH, hMi, hS⟩
        fs hwfs hhead
      obtain ⟨more, hcand⟩ := wsCandidates_run run (strftimeFmts v fs) hne hall htail
      simp only [strftimeFmts, renderFmt, matchFmts, numCandidates, hcand,
        tryCands, setField, setAll, fieldOf]
      rw [ih hwfs hY4fs]
    | Y =>
      have h1000 : 1000 ≤ v.year := hY4 (by simp)
      have h4 := takeDigits4_pad4 v.year hY (strftimeFmts v fs)
      simp only [wfFormat] at hwf
      simp only [strftimeFmts, renderFmt, padY_eq_pad4 v.year h1000 hY,
        matchFmts, numCandidates, h4, tryCands, setAll, fieldOf]
      rw [ih hwf hY4fs]
    | Mon =>
      have h2 := cand2_pad2 1 12 v.month (by omega) hMo1 hMo2 (strftimeFmts v fs)
      simp only [wfFormat] at hwf
      simp only [strftimeFmts, renderFmt, matchFmts, numCandidates,
        h2, List.cons_append, List.nil_append, tryCands, setAll, fieldOf]
      rw [ih hwf hY4fs]
    | Day =>
      have h2 := cand2_pad2 1 31 v.day (by omega) hD1 hD2 (strftimeFmts v fs)
      simp only [wfFormat] at hwf
      simp only [strftimeFmts, renderFmt, matchFmts, numCandidates,
        h2, List.cons_append, List.nil_append, tryCands, setAll, fieldOf]
      rw [ih hwf hY4fs]
    | Hr =>
      have h2 := cand2_pad2 0 23 v.hour (by omega) (Nat.zero_le _) hH (strftimeFmts v fs)
      simp only [wfFormat] at hwf
      simp only [strftimeFmts, renderFmt, matchFmts, numCandidates,
        h2, List.cons_append, List.nil_append, tryCands, setAll, fieldOf]
      rw [ih hwf hY4fs]
    | Min =>
      have h2 := cand2_pad2 0 59 v.minute (by omega) (Nat.zero_le _) hMi (strftimeFmts v fs)
      simp only [wfFormat] at hwf
      simp only [strftimeFmts, renderFmt, matchFmts, numCandidates,
        h2, List.cons_append, List.nil_append, tryCands, setAll, fieldOf]
      rw [ih hwf hY4fs]
    | Sec =>
      have h2 := cand2_pad2 0 61 v.second (by omega) (Nat.zero_le _) (by omega)
        (strftimeFmts v fs)
      simp only [wfFormat] at hwf
      simp only [strftimeFmts, renderFmt, matchFmts, numCandidates,
        h2, List.cons_append, List.nil_append, tryCands, setAll, fieldOf]
      rw [ih hwf hY4fs]

theorem setAll_Y (v : PyDateTime) : ∀ (fmts : List Fmt) (acc : RawFields),
    (setAll acc v fmts).Y = if Fmt.Y ∈ fmts then some v.year else acc.Y := by
  intro fmts
  induction fmts with
  | nil => intro acc; simp [setAll]
  | cons f fs ih =>
    intro acc
    cases f <;>
      simp only [setAll, fieldOf, setField, ih, List.mem_cons] <;>
      split_ifs <;> simp_all

theorem setAll_Mon (v : PyDateTime) : ∀ (fmts : List Fmt) (acc : RawFields),
    (setAll acc v fmts).Mon = if Fmt.Mon ∈ fmts then some v.month else acc.Mon := by
  intro fmts
  induction fmts with
  | nil => intro acc; simp [setAll]
  | cons f fs ih =>
    intro acc
    cases f <;>
      simp only [setAll, fieldOf, setField, ih, List.mem_cons] <;>
      split_ifs <;> simp_all

theorem setAll_Day (v : PyDateTime) : ∀ (fmts : List Fmt) (acc : RawFields),
    (setAll acc v fmts).Day = if Fmt.Day ∈ fmts then some v.day else acc.Day := by
  intro fmts
  induction fmts with
  | nil => intro acc; simp [setAll]
  | cons f fs ih =>
    intro acc
    cases f <;>
      simp only [setAll, fieldOf, setField, ih, List.mem_cons] <;>
      split_ifs <;> simp_all

theorem setAll_Hr (v : PyDateTime) : ∀ (fmts : List Fmt) (acc : RawFields),
    (setAll acc v fmts).Hr = if Fmt.Hr ∈ fmts then some v.hour else acc.Hr := by
  intro fmts
  induction fmts with
  | nil => intro acc; simp [setAll]
  | cons f fs ih =>
    intro acc
    cases f <;>
      simp only [setAll, fieldOf, setField, ih, List.mem_cons] <;>
      split_ifs <;> simp_all

theorem setAll_Min (v : PyDateTime) : ∀ (fmts : List Fmt) (acc : RawFields),
    (setAll acc v fmts).Min = if Fmt.Min ∈ fmts then some v.minute else acc.Min := by
  intro fmts
  induction fmts with
  | nil => intro acc; simp [setAll]
  | cons f fs ih =>
    intro acc
    cases f <;>
      simp only [setAll, fieldOf, setField, ih, List.mem_cons] <;>
      split_ifs <;> simp_all

theorem setAll_Sec (v : PyDateTime) : ∀ (fmts : List Fmt) (acc : RawFields),
    (setAll acc v fmts).Sec = if Fmt.Sec ∈ fmts then some v.second else acc.Sec := by
  intro fmts
  induction fmts with
  | nil => intro acc; simp [setAll]
  | cons f fs ih =>
    intro acc
    cases f <;>
      simp only [setAll, fieldOf, setField, ih, List.mem_cons] <;>
      split_ifs <;> simp_all

theorem tryCands_eq_some {next : List Char → RawFields → Option (RawFields × List Char)}
    {f : Fmt} {acc : RawFields} {x : RawFields × List Char} :
    ∀ cands, tryCands next f acc cands = some x →
      ∃ p ∈ cands, next p.2 (setField acc f p.1) = some x := by
  intro cands
  induction cands with
  | nil => intro h; simp [tryCands] at h
  | cons p rest ih =>
    intro h
    unfold tryCands at h
    cases hnext : next p.2 (setField acc f p.1) with
    | some w =>
      rw [hnext] at h
      exact ⟨p, by simp, by simp at h; rw [hnext, h]⟩
    | none =>
      rw [hnext] at h
      obtain ⟨q, hq, hqn⟩ := ih h
      exact ⟨q, by simp [hq], hqn⟩

/-- Fields not named by any directive of `fmts` pass through the matcher. -/
theorem matchFmts_preserve :
    ∀ (fmts : List Fmt) (data : List Char) (acc flds : RawFields) (rest : List Char),
      matchFmts fmts data acc = some (flds, rest) →
      (Fmt.Y ∉ fmts → flds.Y = acc.Y) ∧ (Fmt.Mon ∉ fmts → flds.Mon = acc.Mon) ∧
      (Fmt.Day ∉ fmts → flds.Day = acc.Day) ∧ (Fmt.Hr ∉ fmts → flds.Hr = acc.Hr) ∧
      (Fmt.Min ∉ fmts → flds.Min = acc.Min) ∧ (Fmt.Sec ∉ fmts → flds.Sec = acc.Sec) := by
  intro fmts
  induction fmts with
  | nil =>
    intro data acc flds rest h
    simp [matchFmts] at h
    simp [h.1]
  | cons f fs ih =>
    intro data acc flds rest h
    cases f with
    | lit c =>
      cases data with
      | nil => simp [matchFmts] at h
      | cons d ds =>
        unfold matchFmts at h
        dsimp only at h
        split_ifs at h with hd
        have := ih ds acc flds rest h
        simp_all [List.mem_cons]
    | ws run =>
      unfold matchFmts at h
      obtain ⟨p, _, hn⟩ := tryCands_eq_some _ h
      have := ih p.2 _ flds rest hn
      simp only [setField] at this
      refine ⟨?_, ?_, ?_, ?_, ?_, ?_⟩ <;>
        intro hmem <;> simp only [List.mem_cons, not_or] at hmem <;>
        simp_all
    | Y =>
      unfold matchFmts at h
      obtain ⟨p, _, hn⟩ := tryCands_eq_some _ h
      have := ih p.2 _ flds rest hn
      simp only [setField] at this
      refine ⟨fun hmem => by simp [List.mem_cons] at hmem, ?_, ?_, ?_, ?_, ?_⟩ <;>
        intro hmem <;> simp only [List.mem_cons, not_or] at hmem <;>
        simp_all
    | Mon =>
      unfold matchFmts at h
      obtain ⟨p, _, hn⟩ := tryCands_eq_some _ h
      have := ih p.2 _ flds rest hn
      simp only [setField] at this
      refine ⟨?_, fun hmem => by simp [List.mem_cons] at hmem, ?_, ?_, ?_, ?_⟩ <;>
        intro hmem <;> simp only [List.mem_cons, not_or] at hmem <;>
        simp_all
    | Day =>
      unfold matchFmts at h
      obtain ⟨p, _, hn⟩ := tryCands_eq_some _ h
      have := ih p.2 _ flds rest hn
      simp only [setField] at this
      refine ⟨?_, ?_, fun hmem => by simp [List.mem_cons] at hmem, ?_, ?_, ?_⟩ <;>
        intro hmem <;> simp only [List.mem_cons, not_or] at hmem <;>
        simp_all
    | Hr =>
      unfold matchFmts at h
      obtain ⟨p, _, hn⟩ := tryCands_eq_some _ h
      have := ih p.2 _ flds rest hn
      simp only [setField] at this
      refine ⟨?_, ?_, ?_, fun hmem => by simp [List.mem_cons] at hmem, ?_, ?_⟩ <;>
        intro hmem <;> simp only [List.mem_cons, not_or] at hmem <;>
        simp_all
    | Min =>
      unfold matchFmts at h
      obtain ⟨p, _, hn⟩ := tryCands_eq_some _ h
      have := ih p.2 _ flds rest hn
      simp only [setField] at this
      refine ⟨?_, ?_, ?_, ?_, fun hmem => by simp [List.mem_cons] at hmem, ?_⟩ <;>
        intro hmem <;> simp only [List.mem_cons, not_or] at hmem <;>
        simp_all
    | Sec =>
      unfold matchFmts at h
      obtain ⟨p, _, hn⟩ := tryCands_eq_some _ h
      have := ih p.2 _ flds rest hn
      simp only [setField] at this
      refine ⟨?_, ?_, ?_, ?_, ?_, fun hmem => by simp [List.mem_cons] at hmem⟩ <;>
        intro hmem <;> simp only [List.mem_cons, not_or] at hmem <;>
        simp_all

theorem strptime_elim {D pat : List Char} {v : PyDateTime}
    (h : strptime D pat = some v) :
    ∃ fmts, compileFormat pat = some fmts ∧ validDT v ∧ compatDT v fmts := by
  unfold strptime at h
  cases hc : compileFormat pat with
  | none => rw [hc] at h; exact absurd h (by simp)
  | some fmts =>
    rw [hc] at h
    refine ⟨fmts, rfl, ?_⟩
    unfold strptimeFmts at h
    dsimp only at h
    cases hm : matchFmts fmts D emptyFields with
    | none => rw [hm] at h; simp at h
    | some pr =>
      rw [hm] at h
      obtain ⟨flds, rest⟩ := pr
      cases rest with
      | cons a b => simp at h
      | nil =>
        unfold mkDT at h
        dsimp only at h
        split_ifs at h with hg
        have hv := Option.some_injective _ h
        have hpres := matchFmts_preserve fmts D emptyFields flds [] hm
        constructor
        · unfold validDT
          rw [← hv]
          exact hg
        · unfold compatDT
          rw [← hv]
          refine ⟨?_, ?_, ?_, ?_, ?_, ?_⟩
          · by_cases hmem : Fmt.Y ∈ fmts
            · exact Or.inl hmem
            · exact Or.inr (by simp [hpres.1 hmem, emptyFields])
          · by_cases hmem : Fmt.Mon ∈ fmts
            · exact Or.inl hmem
            · exact Or.inr (by simp [hpres.2.1 hmem, emptyFields])
          · by_cases hmem : Fmt.Day ∈ fmts
            · exact Or.inl hmem
            · exact Or.inr (by simp [hpres.2.2.1 hmem, emptyFields])
          · by_cases hmem : Fmt.Hr ∈ fmts
            · exact Or.inl hmem
            · exact Or.inr (by simp [hpres.2.2.2.1 hmem, emptyFields])
          · by_cases hmem : Fmt.Min ∈ fmts
            · exact Or.inl hmem
            · exact Or.inr (by simp [hpres.2.2.2.2.1 hmem, emptyFields])
          · by_cases hmem : Fmt.Sec ∈ fmts
            · exact Or.inl hmem
            · exact Or.inr (by simp [hpres.2.2.2.2.2 hmem, emptyFields])

theorem strptime_of_strftime {pat : List Char} {fmts : List Fmt} {v : PyDateTime}
    (hc : compileFormat pat = some fmts) (hval : validDT v) (hcompat : compatDT v fmts)
    (hY1000 : 1000 ≤ v.year) :
    strptime (strftimeFmts v fmts) pat = some v := by
  obtain ⟨g1, g2, g3, g4, g5, g6, g7, g8, g9⟩ := hval
  have hro : rangeOK v :=
    ⟨g2, g3, g4, g5, le_trans g6 (daysInMonth_le_31 _ _ g3 g4), g7, g8, g9⟩
  unfold strptime
  rw [hc]
  unfold strptimeFmts
  dsimp only
  have hm := matchFmts_strftime v hro fmts (compileFormat_wf hc)
    (fun _ => hY1000) emptyFields
  rw [hm]
  unfold mkDT
  dsimp only
  have e1 : (setAll emptyFields v fmts).Y.getD 1900 = v.year := by
    rw [setAll_Y]
    rcases hcompat.1 with hmem | hdef
    · simp [hmem]
    · split_ifs <;> simp [hdef, emptyFields]
  have e2 : (setAll emptyFields v fmts).Mon.getD 1 = v.month := by
    rw [setAll_Mon]
    rcases hcompat.2.1 with hmem | hdef
    · simp [hmem]
    · split_ifs <;> simp [hdef, emptyFields]
  have e3 : (setAll emptyFields v fmts).Day.getD 1 = v.day := by
    rw [setAll_Day]
    rcases hcompat.2.2.1 with hmem | hdef
    · simp [hmem]
    · split_ifs <;> simp [hdef, emptyFields]
  have e4 : (setAll emptyFields v fmts).Hr.getD 0 = v.hour := by
    rw [setAll_Hr]
    rcases hcompat.2.2.2.1 with hmem | hdef
    · simp [hmem]
    · split_ifs <;> simp [hdef, emptyFields]
  have e5 : (setAll emptyFields v fmts).Min.getD 0 = v.minute := by
    rw [setAll_Min]
    rcases hcompat.2.2.2.2.1 with hmem | hdef
    · simp [hmem]
    · split_ifs <;> simp [hdef, emptyFields]
  have e6 : (setAll emptyFields v fmts).Sec.getD 0 = v.second := by
    rw [setAll_Sec]
    rcases hcompat.2.2.2.2.2 with hmem | hdef
    · simp [hmem]
    · split_ifs <;> simp [hdef, emptyFields]
  rw [e1, e2, e3, e4, e5, e6]
  rw [if_pos ⟨g1, g2, g3, g4, g5, g6, g7, g8, g9⟩]

/-! ## Line-processing helpers (supporting lemmas) -/


theorem pyStrip_eq_rdrop (s : List Char) :
    pyStrip s = List.rdropWhile pyIsSpace (s.dropWhile pyIsSpace) := rfl

theorem pyStrip_idem (s : List Char) : pyStrip (pyStrip s) = pyStrip s := by
  rw [pyStrip_eq_rdrop, pyStrip_eq_rdrop]
  have hdrop : List.dropWhile pyIsSpace
      (List.rdropWhile pyIsSpace (s.dropWhile pyIsSpace)) =
      List.rdropWhile pyIsSpace (s.dropWhile pyIsSpace) := by
    rw [List.dropWhile_eq_self_iff]
    intro hl
    have hpre := List.rdropWhile_prefix pyIsSpace (s.dropWhile pyIsSpace)
    have hlen : 0 < (s.dropWhile pyIsSpace).length :=
      lt_of_lt_of_le hl hpre.length_le
    have hget := hpre.getElem (show 0 < _ from hl)
    rw [List.get_eq_getElem, hget]
    have := List.dropWhile_get_zero_not pyIsSpace s (by simpa using hlen)
    simpa using this
  rw [hdrop, List.rdropWhile_idempotent]

theorem splitComma_ne_nil : ∀ s : List Char, splitComma s ≠ [] := by
  intro s
  cases s with
  | nil => simp [splitComma]
  | cons c cs =>
    unfold splitComma
    split_ifs
    · simp
    · cases splitComma cs <;> simp

theorem splitComma_no_comma : ∀ (s : List Char) (p : List Char),
    p ∈ splitComma s → ',' ∉ p := by
  intro s
  induction s with
  | nil => intro p hp; simp [splitComma] at hp; simp [hp]
  | cons c cs ih =>
    intro p hp
    unfold splitComma at hp
    split_ifs at hp with hc
    · rw [List.mem_cons] at hp
      rcases hp with hp | hp
      · simp [hp]
      · exact ih p hp
    · cases hsp : splitComma cs with
      | nil => exact absurd hsp (splitComma_ne_nil cs)
      | cons q qs =>
        rw [hsp] at hp
        rw [List.mem_cons] at hp
        rcases hp with hp | hp
        · subst hp
          intro hmem
          rw [List.mem_cons] at hmem
          rcases hmem with hmem | hmem
          · exact hc hmem.symm
          · exact ih q (by rw [hsp]; simp) hmem
        · exact ih p (by rw [hsp]; simp [hp])

theorem splitComma_of_no_comma : ∀ s : List Char, ',' ∉ s → splitComma s = [s] := by
  intro s
  induction s with
  | nil => intro h; simp [splitComma]
  | cons c cs ih =>
    intro h
    have hc : c ≠ ',' := fun hc => h (by simp [hc])
    have hcs : ',' ∉ cs := fun hm => h (by simp [hm])
    unfold splitComma
    rw [if_neg (fun he => hc he), ih hcs]

theorem splitComma_cons_ne (c : Char) (cs : List Char) (hc : ¬ c = ',') :
    splitComma (c :: cs) = match splitComma cs with
      | [] => [[c]]
      | p :: ps => (c :: p) :: ps := by
  conv_lhs => rw [splitComma.eq_def]
  dsimp only
  rw [if_neg hc]

theorem splitComma_append_comma (t : List Char) :
    ∀ s : List Char, ',' ∉ s → splitComma (s ++ ',' :: t) = s :: splitComma t := by
  intro s
  induction s with
  | nil => intro h; simp [splitComma]
  | cons c cs ih =>
    intro h
    have hc : c ≠ ',' := fun hc => h (by simp [hc])
    have hcs : ',' ∉ cs := fun hm => h (by simp [hm])
    have hrec := ih hcs
    show splitComma (c :: (cs ++ ',' :: t)) = (c :: cs) :: splitComma t
    rw [splitComma_cons_ne c _ (fun he => hc he), hrec]

theorem splitComma_joinComma : ∀ ps : List (List Char), ps ≠ [] →
    (∀ p ∈ ps, ',' ∉ p) → splitComma (joinComma ps) = ps := by
  intro ps
  induction ps with
  | nil => intro h; exact absurd rfl h
  | cons p qs ih =>
    intro _ hnc
    cases qs with
    | nil =>
      show splitComma (joinComma [p]) = [p]
      unfold joinComma
      exact splitComma_of_no_comma p (hnc p (by simp))
    | cons q rs =>
      show splitComma (p ++ ',' :: joinComma (q :: rs)) = p :: q :: rs
      rw [splitComma_append_comma _ p (hnc p (by simp))]
      rw [ih (by simp) (fun x hx => hnc x (by simp [hx]))]

theorem getD_set_ne (l : List (List Char)) (i j : Nat) (a : List Char)
    (hj : j < l.length) (hne : j ≠ i) : (l.set i a).getD j [] = l.getD j [] := by
  rw [List.getD_eq_getElem _ _ (by simpa using hj), List.getD_eq_getElem _ _ hj]
  exact List.getElem_set_of_ne (fun he => hne he.symm) a (by simpa using hj)

/-! ## Claims -/

/-- C1: with both `--shift_days 5` and `--bucket_interval month` on the
command line, `main` reaches the mutual-exclusion check before any file is
opened (the `usage_error` outcome precedes `process_data` for every possible
file-system result) — but `parser.error` terminates the process with status 2,
not 1: the `sys.exit(1)` after it on src/main.py:138 is unreachable dead code,
so the claimed exit status 1 never happens. -/
theorem c1_conflicting_flags_usage_exit : ∀ process_result : Nat,
    pyMain ⟨5, some BucketInterval.month, some "in.csv".toList, some "out.csv".toList,
      "%Y-%m-%d".toList, 0, false⟩ process_result = MainResult.usage_error 2 := by
  intro process_result
  rfl

/-- C2 (counterexample): the verbatim round-trip fails in two ways.  First,
`strptime` is lenient — it accepts the valid but non-zero-padded date string
"2023-1-5" under "%Y-%m-%d", and `strftime` re-renders it zero-padded as
"2023-01-05" ≠ "2023-1-5"; for the same reason `bucket_date` with interval
`day` returns "2023-01-05", not its input unchanged.  Second, for a year
below 1000 the round-trip fails even on canonical input: "0202-01-05" parses
(`%Y` is exactly four digits), but `strftime` emits the unpadded
"202-01-05", which `strptime` cannot parse at all. -/
theorem c2_roundtrip_verbatim_counterexample :
    strptime "2023-1-5".toList "%Y-%m-%d".toList = some ⟨2023, 1, 5, 0, 0, 0⟩ ∧
    strftime ⟨2023, 1, 5, 0, 0, 0⟩ "%Y-%m-%d".toList = some "2023-01-05".toList ∧
    "2023-01-05".toList ≠ "2023-1-5".toList ∧
    bucket_date "2023-1-5".toList "%Y-%m-%d".toList BucketInterval.day =
      some "2023-01-05".toList ∧
    strptime "0202-01-05".toList "%Y-%m-%d".toList = some ⟨202, 1, 5, 0, 0, 0⟩ ∧
    strftime ⟨202, 1, 5, 0, 0, 0⟩ "%Y-%m-%d".toList = some "202-01-05".toList ∧
    strptime "202-01-05".toList "%Y-%m-%d".toList = none :=
  ⟨by decide, by decide, by decide, by decide, by decide, by decide, by decide⟩

/-- C2 (amended): for every pattern accepted by the codec and every date
string `D` that parses to `v` with a four-digit year (1000 ≤ year, the only
years `strftime`'s unpadded `%Y` rendering can re-parse), formatting `v`
yields a canonical string `Dc` that parses back to exactly `v` — so
`format ∘ parse` is the identity on canonically formatted four-digit-year
strings (and a normalizer on non-padded fields), and Bucket with interval
`day` returns such canonical strings unchanged.  Below year 1000 the
round-trip genuinely fails, as the counterexample records. -/
theorem c2_format_parse_roundtrip_canonical {D pat : List Char} {v : PyDateTime}
    (h : strptime D pat = some v) (hY : 1000 ≤ v.year) :
    ∃ Dc, strftime v pat = some Dc ∧ strptime Dc pat = some v ∧
      bucket_date Dc pat BucketInterval.day = some Dc := by
  obtain ⟨fmts, hc, hval, hcompat⟩ := strptime_elim h
  refine ⟨strftimeFmts v fmts, ?_, ?_, ?_⟩
  · unfold strftime
    rw [hc]
  · exact strptime_of_strftime hc hval hcompat hY
  · unfold bucket_date
    rw [strptime_of_strftime hc hval hcompat hY]
    unfold strftime
    rw [hc]

/-- C2 witness: the non-canonical "2023-1-5" parses; its canonical form
"2023-01-05" round-trips and is a fixed point of Bucket `day`. -/
theorem c2_format_parse_roundtrip_canonical_witness :
    ∃ Dc, strftime ⟨2023, 1, 5, 0, 0, 0⟩ "%Y-%m-%d".toList = some Dc ∧
      strptime Dc "%Y-%m-%d".toList = some ⟨2023, 1, 5, 0, 0, 0⟩ ∧
      bucket_date Dc "%Y-%m-%d".toList BucketInterval.day = some Dc :=
  c2_format_parse_roundtrip_canonical
    (by decide : strptime "2023-1-5".toList "%Y-%m-%d".toList = some ⟨2023, 1, 5, 0, 0, 0⟩)
    (by decide)

/-- C3 (counterexample): the pass-through paths write the whitespace-stripped
line, not the raw original verbatim: the line "foo \r" (too few columns for
column_index 2) is written as "foo\n", which differs from the original line
followed by a newline. -/
theorem c3_verbatim_passthrough_counterexample :
    processLine ⟨2, "%Y-%m-%d".toList, 0, some BucketInterval.month, false⟩
      ⟨0, 0, 0, 0⟩ "foo \r".toList = "foo".toList ++ ['\n'] ∧
    "foo".toList ++ ['\n'] ≠ "foo \r".toList ++ ['\n'] :=
  ⟨by decide, by decide⟩

/-- C3 (amended): on a line with too few columns, and on a line whose target
field fails to parse or mask, the *stripped* line is written unchanged
followed by a newline (surrounding whitespace of the raw line is not
reproduced), and processing continues with the next line: `process_data`
handles every following line exactly as it would without the failure. -/
theorem c3_passthrough_preserves_stripped_line (cfg : Config) (dr : Draws)
    (raw : List Char) (hne : pyStrip raw ≠ []) :
    ((splitComma (pyStrip raw)).length ≤ cfg.column_index →
      processLine cfg dr raw = pyStrip raw ++ ['\n']) ∧
    (cfg.column_index < (splitComma (pyStrip raw)).length →
      applyMask cfg dr (pyStrip ((splitComma (pyStrip raw)).getD cfg.column_index [])) = none →
      processLine cfg dr raw = pyStrip raw ++ ['\n']) ∧
    (∀ drs raws, process_data cfg (dr :: drs) (raw :: raws) =
      processLine cfg dr raw :: process_data cfg drs raws) := by
  refine ⟨?_, ?_, fun drs raws => rfl⟩
  · intro hlen
    unfold processLine
    dsimp only
    rw [if_neg hne, if_pos hlen]
  · intro hidx hnone
    unfold processLine
    dsimp only
    rw [if_neg hne, if_neg (not_le.mpr hidx), hnone]

/-- C3 witness: a too-short line ("foo" with column_index 2) and a line with
an unparsable date ("1,not-a-date,3" with column_index 1) both pass through
stripped-unchanged. -/
theorem c3_passthrough_preserves_stripped_line_witness :
    processLine ⟨2, "%Y-%m-%d".toList, 0, some BucketInterval.month, false⟩
      ⟨0, 0, 0, 0⟩ "foo".toList = pyStrip "foo".toList ++ ['\n'] ∧
    processLine ⟨1, "%Y-%m-%d".toList, 0, some BucketInterval.month, false⟩
      ⟨0, 0, 0, 0⟩ "1,not-a-date,3".toList = pyStrip "1,not-a-date,3".toList ++ ['\n'] :=
  ⟨(c3_passthrough_preserves_stripped_line _ _ _ (by decide)).1 (by decide),
   (c3_passthrough_preserves_stripped_line _ _ _ (by decide)).2.1 (by decide) (by decide)⟩

/-- C4: on a successfully masked line the output is the comma-join of the
split parts with only the field at `column_index` replaced; every other field
keeps its position and content (and when the masked value itself contains no
comma, re-splitting the output recovers exactly the updated record). -/
theorem c4_only_target_field_modified (cfg : Config) (dr : Draws)
    (raw masked : List Char) (hne : pyStrip raw ≠ [])
    (hidx : cfg.column_index < (splitComma (pyStrip raw)).length)
    (hmask : applyMask cfg dr
      (pyStrip ((splitComma (pyStrip raw)).getD cfg.column_index [])) = some masked) :
    processLine cfg dr raw =
      joinComma ((splitComma (pyStrip raw)).set cfg.column_index masked) ++ ['\n'] ∧
    (∀ j, j < (splitComma (pyStrip raw)).length → j ≠ cfg.column_index →
      ((splitComma (pyStrip raw)).set cfg.column_index masked).getD j [] =
        (splitComma (pyStrip raw)).getD j []) ∧
    (',' ∉ masked →
      splitComma (joinComma ((splitComma (pyStrip raw)).set cfg.column_index masked)) =
        (splitComma (pyStrip raw)).set cfg.column_index masked) := by
  refine ⟨?_, ?_, ?_⟩
  · unfold processLine
    dsimp only
    rw [if_neg hne, if_neg (not_le.mpr hidx), hmask]
  · intro j hj hne'
    exact getD_set_ne _ _ _ _ hj hne'
  · intro hnc
    apply splitComma_joinComma
    · intro hnil
      have h0 := congrArg List.length hnil
      rw [List.length_set] at h0
      simp only [List.length_nil] at h0
      omega
    · intro x hx
      rcases List.mem_or_eq_of_mem_set hx with hx' | rfl
      · exact splitComma_no_comma _ x hx'
      · exact hnc

/-- C4 witness: bucketing column 1 of "1,2023-01-15,x" to months rewrites only
that field. -/
theorem c4_only_target_field_modified_witness :
    processLine ⟨1, "%Y-%m-%d".toList, 0, some BucketInterval.month, false⟩
      ⟨0, 0, 0, 0⟩ "1,2023-01-15,x".toList =
      joinComma ((splitComma (pyStrip "1,2023-01-15,x".toList)).set 1
        "2023-01-01".toList) ++ ['\n'] ∧
    (∀ j, j < (splitComma (pyStrip "1,2023-01-15,x".toList)).length → j ≠ 1 →
      ((splitComma (pyStrip "1,2023-01-15,x".toList)).set 1
        "2023-01-01".toList).getD j [] =
        (splitComma (pyStrip "1,2023-01-15,x".toList)).getD j []) ∧
    (',' ∉ "2023-01-01".toList →
      splitComma (joinComma ((splitComma (pyStrip "1,2023-01-15,x".toList)).set 1
        "2023-01-01".toList)) =
        (splitComma (pyStrip "1,2023-01-15,x".toList)).set 1 "2023-01-01".toList) :=
  c4_only_target_field_modified
    ⟨1, "%Y-%m-%d".toList, 0, some BucketInterval.month, false⟩ ⟨0, 0, 0, 0⟩
    "1,2023-01-15,x".toList "2023-01-01".toList (by decide) (by decide) (by decide)

/-- C5: the per-line dispatch is the fixed precedence chain of
src/main.py:99-106: Shift when `shift_days > 0`, else Bucket when a bucket
interval is set, else Randomize when the flag is set, else the field passes
through unmasked.  Exactly one strategy runs per line; in particular
`randomize_time` together with `bucket_interval` runs only Bucket. -/
theorem c5_strategy_precedence (cfg : Config) (dr : Draws) (ds : List Char) :
    (0 < cfg.shift_days →
      applyMask cfg dr ds = shift_date ds cfg.date_format cfg.shift_days dr.shift) ∧
    (¬ 0 < cfg.shift_days → ∀ iv, cfg.bucket_interval = some iv →
      applyMask cfg dr ds = bucket_date ds cfg.date_format iv) ∧
    (¬ 0 < cfg.shift_days → cfg.bucket_interval = none → cfg.randomize_time_flag = true →
      applyMask cfg dr ds = randomize_time ds cfg.date_format dr.h dr.m dr.s) ∧
    (¬ 0 < cfg.shift_days → cfg.bucket_interval = none → cfg.randomize_time_flag = false →
      applyMask cfg dr ds = some ds) := by
  refine ⟨?_, ?_, ?_, ?_⟩ <;> intros <;> simp [applyMask, *]

/-- C5 witness: with both `randomize_time` and `bucket_interval month` set,
the line is bucketed, not randomized. -/
theorem c5_strategy_precedence_witness :
    applyMask ⟨0, "%Y-%m-%d".toList, 0, some BucketInterval.month, true⟩
      ⟨0, 5, 6, 7⟩ "2023-01-15".toList =
      bucket_date "2023-01-15".toList "%Y-%m-%d".toList BucketInterval.month :=
  (c5_strategy_precedence ⟨0, "%Y-%m-%d".toList, 0, some BucketInterval.month, true⟩
    ⟨0, 5, 6, 7⟩ "2023-01-15".toList).2.1 (by decide) BucketInterval.month rfl

/-- C6: whenever `shift_date` succeeds with a draw `r` in `randint`'s
inclusive range `[-maxDays, maxDays]`, the shifted value differs from the
parsed input by exactly `r` days — so the delta lies in `[-maxDays, maxDays]`,
with both endpoints attainable since `r = maxDays` and `r = -maxDays` satisfy
the range — and the hour, minute and second are unchanged. -/
theorem c6_shift_delta_bounded_time_preserved (D pat : List Char) (d r : Int)
    (p : PyDateTime) (out : List Char)
    (hp : strptime D pat = some p) (hd : 0 < d) (hlo : -d ≤ r) (hhi : r ≤ d)
    (hout : shift_date D pat d r = some out) :
    ∃ q, addDays p r = some q ∧ strftime q pat = some out ∧
      (toordinalDT q : Int) - (toordinalDT p : Int) = r ∧
      -d ≤ (toordinalDT q : Int) - (toordinalDT p : Int) ∧
      (toordinalDT q : Int) - (toordinalDT p : Int) ≤ d ∧
      q.hour = p.hour ∧ q.minute = p.minute ∧ q.second = p.second := by
  unfold shift_date at hout
  rw [hp] at hout
  dsimp only at hout
  cases ha : addDays p r with
  | none =>
    rw [ha] at hout
    simp at hout
  | some q =>
    rw [ha] at hout
    have hs := addDays_spec p r q ha
    exact ⟨q, rfl, hout, by omega, by omega, by omega, hs.2.1, hs.2.2.1, hs.2.2.2⟩

/-- C6 witness: shifting 2023-01-15 by the endpoint draws 30 and -30 of
`randint(-30, 30)` lands on 2023-02-14 and 2022-12-16. -/
theorem c6_shift_delta_bounded_time_preserved_witness :
    (∃ q, addDays ⟨2023, 1, 15, 0, 0, 0⟩ 30 = some q ∧
      strftime q "%Y-%m-%d".toList = some "2023-02-14".toList ∧
      (toordinalDT q : Int) - (toordinalDT ⟨2023, 1, 15, 0, 0, 0⟩ : Int) = 30 ∧
      -30 ≤ (toordinalDT q : Int) - (toordinalDT ⟨2023, 1, 15, 0, 0, 0⟩ : Int) ∧
      (toordinalDT q : Int) - (toordinalDT ⟨2023, 1, 15, 0, 0, 0⟩ : Int) ≤ 30 ∧
      q.hour = (⟨2023, 1, 15, 0, 0, 0⟩ : PyDateTime).hour ∧
      q.minute = (⟨2023, 1, 15, 0, 0, 0⟩ : PyDateTime).minute ∧
      q.second = (⟨2023, 1, 15, 0, 0, 0⟩ : PyDateTime).second) ∧
    (∃ q, addDays ⟨2023, 1, 15, 0, 0, 0⟩ (-30) = some q ∧
      strftime q "%Y-%m-%d".toList = some "2022-12-16".toList ∧
      (toordinalDT q : Int) - (toordinalDT ⟨2023, 1, 15, 0, 0, 0⟩ : Int) = -30 ∧
      -30 ≤ (toordinalDT q : Int) - (toordinalDT ⟨2023, 1, 15, 0, 0, 0⟩ : Int) ∧
      (toordinalDT q : Int) - (toordinalDT ⟨2023, 1, 15, 0, 0, 0⟩ : Int) ≤ 30 ∧
      q.hour = (⟨2023, 1, 15, 0, 0, 0⟩ : PyDateTime).hour ∧
      q.minute = (⟨2023, 1, 15, 0, 0, 0⟩ : PyDateTime).minute ∧
      q.second = (⟨2023, 1, 15, 0, 0, 0⟩ : PyDateTime).second) :=
  ⟨c6_shift_delta_bounded_time_preserved "2023-01-15".toList "%Y-%m-%d".toList 30 30
      ⟨2023, 1, 15, 0, 0, 0⟩ "2023-02-14".toList
      (by decide) (by decide) (by decide) (by decide) (by decide),
   c6_shift_delta_bounded_time_preserved "2023-01-15".toList "%Y-%m-%d".toList 30 (-30)
      ⟨2023, 1, 15, 0, 0, 0⟩ "2022-12-16".toList
      (by decide) (by decide) (by decide) (by decide) (by decide)⟩

/-- C7: on any parsed date the `week` bucket always succeeds, returning the
formatting of a value `q` whose weekday is Monday (0 in CPython's
`date.weekday()` numbering, i.e. Monday of the ISO calendar), with
`q ≤ p` as ordinals — `q` is exactly `weekday(p)` days before `p`, the most
recent Monday — and the time-of-day carried unchanged. -/
theorem c7_bucket_week_monday_le (D pat : List Char) (p : PyDateTime)
    (hp : strptime D pat = some p) :
    ∃ q out, bucket_date D pat BucketInterval.week = some out ∧
      strftime q pat = some out ∧
      weekdayDT q = 0 ∧
      toordinalDT q ≤ toordinalDT p ∧
      toordinalDT p - toordinalDT q = weekdayDT p ∧
      q.hour = p.hour ∧ q.minute = p.minute ∧ q.second = p.second := by
  obtain ⟨fmts, hc, hval, _⟩ := strptime_elim hp
  obtain ⟨g1, g2, g3, g4, g5, g6, _, _, _⟩ := hval
  have hb := toordinal_bounds p.year p.month p.day g1 g2 g3 g4 g5 g6
  have hordp : toordinalDT p = toordinal p.year p.month p.day := rfl
  have hwd : weekdayDT p = (toordinalDT p + 6) % 7 := rfl
  have h1 : (1 : Int) ≤ (toordinalDT p : Int) + (-(weekdayDT p : Int)) := by
    rw [hwd]
    omega
  have h2 : (toordinalDT p : Int) + (-(weekdayDT p : Int)) ≤ ((maxOrdinal : Nat) : Int) := by
    have : toordinalDT p ≤ maxOrdinal := by
      rw [hordp]
      exact hb.2
    omega
  obtain ⟨q, hq⟩ := addDays_isSome p (-(weekdayDT p : Int)) h1 h2
  have hs := addDays_spec p _ q hq
  refine ⟨q, strftimeFmts q fmts, ?_, ?_, ?_, ?_, ?_, hs.2.1, hs.2.2.1, hs.2.2.2⟩
  · unfold bucket_date
    rw [hp]
    dsimp only
    rw [hq]
    unfold strftime
    rw [hc]
  · unfold strftime
    rw [hc]
  · have hint := hs.1
    unfold weekdayDT at *
    omega
  · have hint := hs.1
    omega
  · have hint := hs.1
    unfold weekdayDT at *
    omega

/-- C7 witness: bucketing Sunday 2023-01-15 by week yields Monday 2023-01-09. -/
theorem c7_bucket_week_monday_le_witness :
    ∃ q out, bucket_date "2023-01-15".toList "%Y-%m-%d".toList BucketInterval.week =
        some out ∧
      strftime q "%Y-%m-%d".toList = some out ∧
      weekdayDT q = 0 ∧
      toordinalDT q ≤ toordinalDT ⟨2023, 1, 15, 0, 0, 0⟩ ∧
      toordinalDT ⟨2023, 1, 15, 0, 0, 0⟩ - toordinalDT q = weekdayDT ⟨2023, 1, 15, 0, 0, 0⟩ ∧
      q.hour = (⟨2023, 1, 15, 0, 0, 0⟩ : PyDateTime).hour ∧
      q.minute = (⟨2023, 1, 15, 0, 0, 0⟩ : PyDateTime).minute ∧
      q.second = (⟨2023, 1, 15, 0, 0, 0⟩ : PyDateTime).second :=
  c7_bucket_week_monday_le "2023-01-15".toList "%Y-%m-%d".toList ⟨2023, 1, 15, 0, 0, 0⟩
    (by decide)

/-- C8: on any parsed date the `month` bucket succeeds and returns the
formatting of the value with day-of-month 1 and the year, month and
time-of-day of the input. -/
theorem c8_bucket_month_first_day (D pat : List Char) (p : PyDateTime)
    (hp : strptime D pat = some p) :
    ∃ q out, bucket_date D pat BucketInterval.month = some out ∧
      strftime q pat = some out ∧
      q.day = 1 ∧ q.year = p.year ∧ q.month = p.month ∧
      q.hour = p.hour ∧ q.minute = p.minute ∧ q.second = p.second := by
  obtain ⟨fmts, hc, _, _⟩ := strptime_elim hp
  refine ⟨{ p with day := 1 }, strftimeFmts { p with day := 1 } fmts,
    ?_, ?_, rfl, rfl, rfl, rfl, rfl, rfl⟩
  · unfold bucket_date
    rw [hp]
    dsimp only
    unfold strftime
    rw [hc]
  · unfold strftime
    rw [hc]

/-- C8 witness: bucketing 2023-01-15 by month gives a day-1 value of the same
year and month. -/
theorem c8_bucket_month_first_day_witness :
    ∃ q out, bucket_date "2023-01-15".toList "%Y-%m-%d".toList BucketInterval.month =
        some out ∧
      strftime q "%Y-%m-%d".toList = some out ∧
      q.day = 1 ∧ q.year = (⟨2023, 1, 15, 0, 0, 0⟩ : PyDateTime).year ∧
      q.month = (⟨2023, 1, 15, 0, 0, 0⟩ : PyDateTime).month ∧
      q.hour = (⟨2023, 1, 15, 0, 0, 0⟩ : PyDateTime).hour ∧
      q.minute = (⟨2023, 1, 15, 0, 0, 0⟩ : PyDateTime).minute ∧
      q.second = (⟨2023, 1, 15, 0, 0, 0⟩ : PyDateTime).second :=
  c8_bucket_month_first_day "2023-01-15".toList "%Y-%m-%d".toList ⟨2023, 1, 15, 0, 0, 0⟩
    (by decide)

/-- C9: on any parsed date, with the three `randint` draws in their ranges
`[0,23]`, `[0,59]`, `[0,59]`, `randomize_time` succeeds and returns the
formatting of the value whose year, month and day are the input's and whose
hour, minute and second are exactly the three draws. -/
theorem c9_randomize_time_date_preserved (D pat : List Char) (p : PyDateTime)
    (rh rm rs : Nat) (hp : strptime D pat = some p)
    (hh : rh ≤ 23) (hm : rm ≤ 59) (hs : rs ≤ 59) :
    ∃ q out, randomize_time D pat rh rm rs = some out ∧
      strftime q pat = some out ∧
      q.year = p.year ∧ q.month = p.month ∧ q.day = p.day ∧
      q.hour = rh ∧ q.minute = rm ∧ q.second = rs := by
  obtain ⟨fmts, hc, _, _⟩ := strptime_elim hp
  refine ⟨⟨p.year, p.month, p.day, rh, rm, rs⟩,
    strftimeFmts ⟨p.year, p.month, p.day, rh, rm, rs⟩ fmts,
    ?_, ?_, rfl, rfl, rfl, rfl, rfl, rfl⟩
  · unfold randomize_time
    rw [hp]
    dsimp only
    rw [if_pos ⟨hh, hm, hs⟩]
    unfold strftime
    rw [hc]
  · unfold strftime
    rw [hc]

/-- C9 witness: randomizing the time of 2023-01-15 with draws 5, 6, 7 keeps
the date and installs 05:06:07. -/
theorem c9_randomize_time_date_preserved_witness :
    ∃ q out, randomize_time "2023-01-15 10:30:00".toList
        "%Y-%m-%d %H:%M:%S".toList 5 6 7 = some out ∧
      strftime q "%Y-%m-%d %H:%M:%S".toList = some out ∧
      q.year = (⟨2023, 1, 15, 10, 30, 0⟩ : PyDateTime).year ∧
      q.month = (⟨2023, 1, 15, 10, 30, 0⟩ : PyDateTime).month ∧
      q.day = (⟨2023, 1, 15, 10, 30, 0⟩ : PyDateTime).day ∧
      q.hour = 5 ∧ q.minute = 6 ∧ q.second = 7 :=
  c9_randomize_time_date_preserved "2023-01-15 10:30:00".toList
    "%Y-%m-%d %H:%M:%S".toList ⟨2023, 1, 15, 10, 30, 0⟩ 5 6 7
    (by decide) (by decide) (by decide) (by decide)

/-- C10: every line is whitespace-stripped before any processing — the output
for a raw line equals the output for its stripped form, so leading/trailing
whitespace (including a CR from CRLF input) never reaches the output even on
the pass-through paths — and a whitespace-only line is written as exactly one
newline character. -/
theorem c10_lines_stripped_before_processing (cfg : Config) (dr : Draws)
    (raw : List Char) :
    processLine cfg dr raw = processLine cfg dr (pyStrip raw) ∧
    (pyStrip raw = [] → processLine cfg dr raw = ['\n']) := by
  constructor
  · show processLine cfg dr raw = processLine cfg dr (pyStrip raw)
    unfold processLine
    rw [pyStrip_idem]
  · intro h
    unfold processLine
    dsimp only
    rw [if_pos h]

/-- C10 witness: a whitespace-only line becomes exactly one newline. -/
theorem c10_lines_stripped_before_processing_witness :
    processLine ⟨0, "%Y-%m-%d".toList, 0, some BucketInterval.day, false⟩
      ⟨0, 0, 0, 0⟩ "  \t \r".toList = ['\n'] :=
  (c10_lines_stripped_before_processing
    ⟨0, "%Y-%m-%d".toList, 0, some BucketInterval.day, false⟩ ⟨0, 0, 0, 0⟩
    "  \t \r".toList).2 (by decide)
